import Mathlib

/-!
Shallow embedding of the shiny-hunter progress store (src/database.py) and the
stats aggregation done by the UI layer (src/app.py, `stats_page`).

Modelling conventions:
* SQLite tables become Lean lists of structure values; `AUTOINCREMENT` ids are
  a `next_id` counter carried in the store state.
* `datetime.now()` / SQL `CURRENT_TIMESTAMP` become an explicit `now : Nat`
  argument to each operation that reads the clock (the stored `caught_date`
  string `%Y-%m-%d %H:%M` is lexicographically ordered exactly as the
  underlying times are, so an abstract totally ordered stamp is faithful).
* SQLite `REAL` (`time_spent_minutes`) is modelled by exact rationals `ℚ`.
* SQL `SUM` over an empty row set yields `NULL`, modelled as `none`;
  `COUNT(*)` always yields a number.
* `SELECT ... ORDER BY c DESC` is modelled as a stable sort of the table rows
  by `c` descending (SQLite leaves the relative order of equal keys
  unspecified; the stable model fixes one concrete choice, and no theorem
  below depends on the order of rows with equal keys except where noted).
* Python dict insertion-order semantics (`method_counts` in `stats_page`) are
  modelled by an association list extended in first-seen key order, and
  `pandas.sort_values` by a stable sort (its tie order is not contractually
  specified; on the tiny frames built here it preserves input order).
-/

/-- Row of the `caught_shinies` table (src/database.py, `init_db`). -/
structure CaughtShiny where
  id : Nat
  pokemon_id : Int
  pokemon_name : String
  hunt_method : Option String
  notes : Option String
  caught_date : Nat
  deriving Repr, DecidableEq

/-- Row of the `hunt_progress` table (src/database.py, `init_db`);
`UNIQUE(pokemon_id, method)`. -/
structure HuntProgress where
  id : Nat
  pokemon_id : Int
  pokemon_name : String
  method : String
  encounter_count : Int
  time_spent_minutes : ℚ
  last_updated : Nat
  deriving Repr, DecidableEq

/-- State of the SQLite database: the two tables the core logic touches plus
their `AUTOINCREMENT` counters (the unused `hunt_sessions` table is omitted). -/
structure DB where
  shinies : List CaughtShiny
  shinies_next_id : Nat
  hunts : List HuntProgress
  hunts_next_id : Nat
  deriving Repr, DecidableEq

/-- Freshly initialised database (`init_db` creates empty tables). -/
def DB.empty : DB :=
  { shinies := [], shinies_next_id := 1, hunts := [], hunts_next_id := 1 }

/-- `add_shiny` (src/database.py:71-80): INSERT one row into `caught_shinies`
with the current time as `caught_date`; returns the updated store and
`cursor.lastrowid`.  The Python function performs no validation of
`pokemon_name`: any string, the empty string included, is inserted as is. -/
def add_shiny (db : DB) (pokemon_id : Int) (pokemon_name : String)
    (hunt_method : Option String) (notes : Option String) (now : Nat) :
    DB × Nat :=
  let row : CaughtShiny :=
    { id := db.shinies_next_id, pokemon_id := pokemon_id,
      pokemon_name := pokemon_name, hunt_method := hunt_method,
      notes := notes, caught_date := now }
  ({ db with shinies := db.shinies ++ [row],
             shinies_next_id := db.shinies_next_id + 1 },
   db.shinies_next_id)

/-- Comparison used to model `ORDER BY caught_date DESC`: `a` may come before
`b` when `b`'s date is not later. -/
def shinyLater (a b : CaughtShiny) : Prop := b.caught_date ≤ a.caught_date

instance : DecidableRel shinyLater := fun a b =>
  inferInstanceAs (Decidable (b.caught_date ≤ a.caught_date))

instance : IsTotal CaughtShiny shinyLater :=
  ⟨fun a b => Nat.le_total b.caught_date a.caught_date⟩

instance : IsTrans CaughtShiny shinyLater :=
  ⟨fun _ _ _ h h' => Nat.le_trans h' h⟩

/-- `get_all_shinies` (src/database.py:82-87):
`SELECT * FROM caught_shinies ORDER BY caught_date DESC`. -/
def get_all_shinies (db : DB) : List CaughtShiny :=
  List.insertionSort shinyLater db.shinies

/-- `get_shiny_count` (src/database.py:89-94):
`SELECT COUNT(*) FROM caught_shinies`. -/
def get_shiny_count (db : DB) : Nat :=
  db.shinies.length

/-- Match predicate for the `UNIQUE(pokemon_id, method)` key. -/
def matchKey (pid : Int) (method : String) (h : HuntProgress) : Bool :=
  h.pokemon_id == pid && h.method == method

/-- Rows of `hunt_progress` carrying a given (pokemon_id, method) key. -/
def huntsFor (db : DB) (pid : Int) (method : String) : List HuntProgress :=
  db.hunts.filter (matchKey pid method)

/-- `update_hunt_progress` (src/database.py:97-109): `INSERT ... ON
CONFLICT(pokemon_id, method) DO UPDATE SET encounter_count = encounter_count +
excluded.encounter_count, time_spent_minutes = time_spent_minutes +
excluded.time_spent_minutes, last_updated = CURRENT_TIMESTAMP`.  Note the
conflict branch adds the deltas and refreshes `last_updated` but does not
touch `pokemon_name`. -/
def update_hunt_progress (db : DB) (pokemon_id : Int) (pokemon_name : String)
    (method : String) (encounters : Int) (time_spent : ℚ) (now : Nat) : DB :=
  if db.hunts.any (matchKey pokemon_id method) then
    { db with hunts := db.hunts.map (fun h =>
        if matchKey pokemon_id method h then
          { h with encounter_count := h.encounter_count + encounters,
                   time_spent_minutes := h.time_spent_minutes + time_spent,
                   last_updated := now }
        else h) }
  else
    { db with
        hunts := db.hunts ++
          [{ id := db.hunts_next_id, pokemon_id := pokemon_id,
             pokemon_name := pokemon_name, method := method,
             encounter_count := encounters,
             time_spent_minutes := time_spent, last_updated := now }],
        hunts_next_id := db.hunts_next_id + 1 }

/-- Result row of `get_hunt_stats`: `SUM(encounter_count)`,
`SUM(time_spent_minutes)`, `COUNT(*)`; the sums are `NULL` over zero rows. -/
structure HuntStats where
  total_encounters : Option Int
  total_time : Option ℚ
  active_hunts : Nat
  deriving Repr, DecidableEq

/-- SQL `SUM` over an integer column: `NULL` when there are no rows. -/
def sqlSumInt (l : List Int) : Option Int :=
  if l.isEmpty then none else some l.sum

/-- SQL `SUM` over a `REAL` column: `NULL` when there are no rows. -/
def sqlSumRat (l : List ℚ) : Option ℚ :=
  if l.isEmpty then none else some l.sum

/-- `get_hunt_stats` (src/database.py:118-129). -/
def get_hunt_stats (db : DB) : HuntStats :=
  { total_encounters := sqlSumInt (db.hunts.map (·.encounter_count)),
    total_time := sqlSumRat (db.hunts.map (·.time_spent_minutes)),
    active_hunts := db.hunts.length }

/-- `reset_hunt` (src/database.py:131-136):
`DELETE FROM hunt_progress WHERE pokemon_id = ? AND method = ?`. -/
def reset_hunt (db : DB) (pid : Int) (method : String) : DB :=
  { db with hunts := db.hunts.filter (fun h => !(matchKey pid method h)) }

/-- `delete_shiny` (src/database.py:138-143):
`DELETE FROM caught_shinies WHERE id = ?`. -/
def delete_shiny (db : DB) (shiny_id : Nat) : DB :=
  { db with shinies := db.shinies.filter (fun s => !(s.id == shiny_id)) }

/-! Stats aggregation performed by the UI layer (src/app.py, `stats_page`). -/

/-- Python truthiness coercion `shiny['hunt_method'] or 'Unknown'`
(src/app.py:691): both a SQL `NULL` method and an empty string are falsy and
fall back to the sentinel label. -/
def pyOrUnknown (m : Option String) : String :=
  match m with
  | none => "Unknown"
  | some s => if s = "" then "Unknown" else s

/-- One step of the counting loop `method_counts[method] =
method_counts.get(method, 0) + 1` (src/app.py:692) on a Python dict modelled
as an association list in insertion order. -/
def bumpCount (acc : List (String × Nat)) (k : String) : List (String × Nat) :=
  if acc.any (fun p => p.1 == k) then
    acc.map (fun p => if p.1 == k then (p.1, p.2 + 1) else p)
  else
    acc ++ [(k, 1)]

/-- The dict built by the loop at src/app.py:689-692, as `(method, count)`
pairs in first-seen order. -/
def method_counts (shinies : List CaughtShiny) : List (String × Nat) :=
  shinies.foldl (fun acc s => bumpCount acc (pyOrUnknown s.hunt_method)) []

/-- Comparison modelling `sort_values('Count', ascending=False)`
(src/app.py:695): `a` may precede `b` when its count is not smaller. -/
def countGE (a b : String × Nat) : Prop := b.2 ≤ a.2

instance : DecidableRel countGE := fun a b =>
  inferInstanceAs (Decidable (b.2 ≤ a.2))

instance : IsTotal (String × Nat) countGE :=
  ⟨fun a b => Nat.le_total b.2 a.2⟩

instance : IsTrans (String × Nat) countGE :=
  ⟨fun _ _ _ h h' => Nat.le_trans h' h⟩

/-- The "Shinies by Hunt Method" table of `stats_page` (src/app.py:689-697):
group by coerced method label, then sort by count descending.  `pandas`
leaves the relative order of tied counts unspecified; the stable sort used
here keeps them in dict insertion order, which is what the small frames built
by the app are observed to do. -/
def shinyCountByMethod (shinies : List CaughtShiny) : List (String × Nat) :=
  List.insertionSort countGE (method_counts shinies)

/-- Modelled from the spec (§4.2), for comparison with `shinyCountByMethod`:
sort by count descending with ties broken by label in ascending lexical
order (lexicographic on the label's character sequence). -/
def specCountOrder (a b : String × Nat) : Prop :=
  b.2 < a.2 ∨ (a.2 = b.2 ∧ a.1.data ≤ b.1.data)

instance : DecidableRel specCountOrder := fun a b =>
  inferInstanceAs (Decidable (b.2 < a.2 ∨ (a.2 = b.2 ∧ a.1.data ≤ b.1.data)))

instance : IsTotal (String × Nat) specCountOrder := by
  constructor
  intro a b
  rcases Nat.lt_trichotomy a.2 b.2 with h | h | h
  · exact Or.inr (Or.inl h)
  · rcases le_total a.1.data b.1.data with h' | h'
    · exact Or.inl (Or.inr ⟨h, h'⟩)
    · exact Or.inr (Or.inr ⟨h.symm, h'⟩)
  · exact Or.inl (Or.inl h)

instance : IsTrans (String × Nat) specCountOrder := by
  constructor
  rintro a b c (h | ⟨h, h'⟩) (g | ⟨g, g'⟩)
  · exact Or.inl (Nat.lt_trans g h)
  · exact Or.inl (g ▸ h)
  · exact Or.inl (h ▸ g)
  · exact Or.inr ⟨h.trans g, h'.trans g'⟩

/-- Modelled from the spec (§4.2): the method distribution with the spec's
deterministic tie-break. -/
def spec_shinyCountByMethod (shinies : List CaughtShiny) : List (String × Nat) :=
  List.insertionSort specCountOrder (method_counts shinies)

/-- Python coercion `hunt_stats['total_encounters'] or 0` (src/app.py:658):
`None` and `0` are falsy, any other integer is returned unchanged. -/
def orZeroInt (x : Option Int) : Int := x.getD 0

/-- Python coercion `hunt_stats['total_time'] or 0` (src/app.py:667). -/
def orZeroRat (x : Option ℚ) : ℚ := x.getD 0

/-- The "Average Encounters per Shiny" metric of `stats_page`
(src/app.py:718-720): computed only when `total_encounters > 0 and
shiny_count > 0`, as the true division `total_encounters / shiny_count`. -/
def averageEncountersPerShiny (total_encounters : Int) (shiny_count : Nat) :
    Option ℚ :=
  if 0 < total_encounters ∧ 0 < shiny_count then
    some ((total_encounters : ℚ) / (shiny_count : ℚ))
  else
    none

/-! Helper lemmas about the upsert. -/

/-- The fresh row inserted by the no-conflict branch of
`update_hunt_progress`. -/
def insertedRow (db : DB) (pid : Int) (name method : String) (e : Int) (t : ℚ)
    (now : Nat) : HuntProgress :=
  { id := db.hunts_next_id, pokemon_id := pid, pokemon_name := name,
    method := method, encounter_count := e, time_spent_minutes := t,
    last_updated := now }

/-- The additive merge applied by the conflict branch of
`update_hunt_progress`: counters grow by the deltas, `last_updated` is
refreshed, every other field (notably `pokemon_name`) is untouched. -/
def mergedRow (r : HuntProgress) (e : Int) (t : ℚ) (now : Nat) : HuntProgress :=
  { r with encounter_count := r.encounter_count + e,
           time_spent_minutes := r.time_spent_minutes + t,
           last_updated := now }

theorem matchKey_insertedRow (db : DB) (pid : Int) (name method : String)
    (e : Int) (t : ℚ) (now : Nat) :
    matchKey pid method (insertedRow db pid name method e t now) = true := by
  simp [matchKey, insertedRow]

theorem matchKey_mergedRow (pid : Int) (method : String) (r : HuntProgress)
    (e : Int) (t : ℚ) (now : Nat) :
    matchKey pid method (mergedRow r e t now) = matchKey pid method r := by
  simp [matchKey, mergedRow]

/-- When no row carries the key, the upsert appends a fresh row initialised
with the deltas. -/
theorem huntsFor_update_insert (db : DB) (pid : Int) (name method : String)
    (e : Int) (t : ℚ) (now : Nat) (h : huntsFor db pid method = []) :
    huntsFor (update_hunt_progress db pid name method e t now) pid method =
      [insertedRow db pid name method e t now] := by
  have hall : ∀ a ∈ db.hunts, ¬(matchKey pid method a = true) :=
    List.filter_eq_nil_iff.mp h
  have hany : db.hunts.any (matchKey pid method) = false := by
    rw [← Bool.not_eq_true, List.any_eq_true]
    rintro ⟨x, hx, hpx⟩
    exact hall x hx hpx
  unfold update_hunt_progress
  rw [hany]
  simp only [Bool.false_eq_true, if_false]
  show List.filter (matchKey pid method)
      (db.hunts ++ [insertedRow db pid name method e t now]) = _
  rw [List.filter_append, show db.hunts.filter (matchKey pid method) = []
    from h, List.nil_append]
  simp [List.filter, matchKey_insertedRow]

/-- When exactly one row carries the key, the upsert replaces it with its
additive merge and leaves the rest of the table alone. -/
theorem huntsFor_update_found (db : DB) (pid : Int) (name method : String)
    (e : Int) (t : ℚ) (now : Nat) (r : HuntProgress)
    (h : huntsFor db pid method = [r]) :
    huntsFor (update_hunt_progress db pid name method e t now) pid method =
      [mergedRow r e t now] := by
  have hrmem : r ∈ db.hunts.filter (matchKey pid method) := by
    rw [huntsFor] at h; rw [h]; exact List.mem_singleton_self r
  have hr := List.mem_filter.mp hrmem
  have hany : db.hunts.any (matchKey pid method) = true :=
    List.any_eq_true.mpr ⟨r, hr.1, hr.2⟩
  unfold update_hunt_progress
  rw [hany]
  simp only [if_true]
  show List.filter (matchKey pid method)
      (db.hunts.map (fun h' =>
        if matchKey pid method h' then mergedRow h' e t now else h')) = _
  rw [List.filter_map]
  have hcomp : (matchKey pid method ∘ fun h' =>
      if matchKey pid method h' then mergedRow h' e t now else h') =
      matchKey pid method := by
    funext h'
    by_cases hk : matchKey pid method h' = true
    · simp [Function.comp, hk, matchKey_mergedRow]
    · simp [Function.comp, hk]
  rw [hcomp]
  have : db.hunts.filter (matchKey pid method) = [r] := h
  rw [this, List.map_singleton, if_pos hr.2]

/-- Parameters of one `update_hunt_progress` call sharing a fixed
(speciesId, method) key: the name argument, the two deltas and the clock
reading at the call. -/
structure UpdCall where
  name : String
  enc : Int
  time : ℚ
  now : Nat

/-- Fold a list of `update_hunt_progress` calls for one key over the store. -/
def applyUpdates (db : DB) (pid : Int) (method : String)
    (calls : List UpdCall) : DB :=
  calls.foldl
    (fun d c => update_hunt_progress d pid c.name method c.enc c.time c.now) db

theorem applyUpdates_found (pid : Int) (method : String) :
    ∀ (calls : List UpdCall) (db : DB) (r : HuntProgress),
      huntsFor db pid method = [r] →
      ∃ r₂, huntsFor (applyUpdates db pid method calls) pid method = [r₂] ∧
        r₂.encounter_count =
          r.encounter_count + (calls.map UpdCall.enc).sum ∧
        r₂.time_spent_minutes =
          r.time_spent_minutes + (calls.map UpdCall.time).sum
  | [], db, r, h => ⟨r, h, by simp, by simp⟩
  | c :: rest, db, r, h => by
    have hstep := huntsFor_update_found db pid c.name method c.enc c.time
      c.now r h
    obtain ⟨r₂, h₂, henc, htime⟩ := applyUpdates_found pid method rest
      (update_hunt_progress db pid c.name method c.enc c.time c.now)
      (mergedRow r c.enc c.time c.now) hstep
    refine ⟨r₂, h₂, ?_, ?_⟩
    · rw [henc]; simp [mergedRow, add_assoc]
    · rw [htime]; simp [mergedRow, add_assoc]

/-- Starting from a store with no row for the key, a nonempty sequence of
calls leaves exactly one row whose counters are the sums of the deltas. -/
theorem applyUpdates_sums (pid : Int) (method : String) (calls : List UpdCall)
    (db : DB) (h : huntsFor db pid method = []) (hne : calls ≠ []) :
    ∃ r, huntsFor (applyUpdates db pid method calls) pid method = [r] ∧
      r.encounter_count = (calls.map UpdCall.enc).sum ∧
      r.time_spent_minutes = (calls.map UpdCall.time).sum := by
  match calls, hne with
  | c :: rest, _ =>
    have hstep := huntsFor_update_insert db pid c.name method c.enc c.time
      c.now h
    obtain ⟨r, hr, henc, htime⟩ := applyUpdates_found pid method rest
      (update_hunt_progress db pid c.name method c.enc c.time c.now)
      (insertedRow db pid c.name method c.enc c.time c.now) hstep
    exact ⟨r, hr, by rw [henc]; simp [insertedRow],
      by rw [htime]; simp [insertedRow]⟩

/-! Helper lemmas about the grouping dict of `stats_page`. -/

/-- Total count recorded for label `k` in an association list. -/
def accCount (acc : List (String × Nat)) (k : String) : Nat :=
  ((acc.filter (fun p => p.1 == k)).map (fun p => p.2)).sum

/-- Number of shinies whose coerced method label is `k`. -/
def labelCount (shinies : List CaughtShiny) (k : String) : Nat :=
  shinies.countP (fun s => pyOrUnknown s.hunt_method == k)

theorem keys_bumpCount (acc : List (String × Nat)) (j : String) :
    (bumpCount acc j).map (fun p => p.1) =
      if acc.any (fun p => p.1 == j) then acc.map (fun p => p.1)
      else acc.map (fun p => p.1) ++ [j] := by
  unfold bumpCount
  by_cases hany : acc.any (fun p => p.1 == j) = true
  · rw [if_pos hany, if_pos hany, List.map_map]
    congr 1
    funext p
    by_cases hp : p.1 = j <;> simp [hp]
  · rw [if_neg hany, if_neg hany]
    simp

theorem nodup_keys_bumpCount (acc : List (String × Nat)) (j : String)
    (h : (acc.map (fun p => p.1)).Nodup) :
    ((bumpCount acc j).map (fun p => p.1)).Nodup := by
  rw [keys_bumpCount]
  by_cases hany : acc.any (fun p => p.1 == j) = true
  · rw [if_pos hany]; exact h
  · rw [if_neg hany]
    refine h.append (List.nodup_singleton j) ?_
    intro x hx hxj
    rw [List.mem_singleton] at hxj
    subst hxj
    obtain ⟨p, hp, hpx⟩ := List.mem_map.mp hx
    exact hany (List.any_eq_true.mpr ⟨p, hp, by simp [hpx]⟩)

theorem accCount_bumpCount (acc : List (String × Nat)) (j k : String)
    (h : (acc.map (fun p => p.1)).Nodup) :
    accCount (bumpCount acc j) k =
      accCount acc k + if j == k then 1 else 0 := by
  unfold bumpCount
  by_cases hany : acc.any (fun p => p.1 == j) = true
  · rw [if_pos hany]
    unfold accCount
    rw [List.filter_map]
    have hcomp : ((fun p : String × Nat => p.1 == k) ∘ fun p =>
        if p.1 == j then (p.1, p.2 + 1) else p) =
        (fun p : String × Nat => p.1 == k) := by
      funext p
      by_cases hp : p.1 = j <;> simp [Function.comp, hp]
    rw [hcomp]
    by_cases hjk : j = k
    · subst hjk
      have hone : (acc.filter (fun p => p.1 == j)).length = 1 := by
        have hle : (acc.filter (fun p => p.1 == j)).length ≤ 1 := by
          rw [← List.countP_eq_length_filter]
          have hc := (List.nodup_iff_count_le_one.mp h) j
          rw [List.count_eq_countP, List.countP_map] at hc
          have heq : ((fun x : String => x == j) ∘ fun p : String × Nat =>
              p.1) = fun p : String × Nat => p.1 == j := rfl
          rw [heq] at hc
          exact hc
        obtain ⟨x, hx, hpx⟩ := List.any_eq_true.mp hany
        have hpos : 0 < (acc.filter (fun p => p.1 == j)).length :=
          List.length_pos.mpr
            (List.ne_nil_of_mem (List.mem_filter.mpr ⟨hx, hpx⟩))
        omega
      obtain ⟨e, he⟩ := List.length_eq_one.mp hone
      have hemem : e ∈ acc.filter (fun p => p.1 == j) := by
        rw [he]; exact List.mem_singleton_self e
      have hej : (e.1 == j) = true := (List.mem_filter.mp hemem).2
      rw [he, List.map_singleton, List.map_singleton, if_pos hej,
        List.map_singleton, List.sum_singleton, List.sum_singleton]
      simp
    · have hbeq : (j == k) = false := by simp [hjk]
      rw [hbeq]
      simp only [Bool.false_eq_true, if_false, Nat.add_zero]
      congr 1
      rw [List.map_map]
      apply List.map_congr_left
      intro p hp
      have hpk : p.1 = k := by simpa using (List.mem_filter.mp hp).2
      have hpj : (p.1 == j) = false := by simp [hpk, Ne.symm hjk]
      simp [Function.comp, hpj]
  · rw [if_neg hany]
    unfold accCount
    rw [List.filter_append, List.map_append, List.sum_append]
    by_cases hjk : j = k
    · subst hjk; simp
    · have hbeq : (j == k) = false := by simp [hjk]
      simp [hbeq, List.filter, hjk]

theorem accCount_foldl (l : List CaughtShiny) :
    ∀ acc : List (String × Nat), (acc.map (fun p => p.1)).Nodup →
      ((l.foldl (fun a s => bumpCount a (pyOrUnknown s.hunt_method))
          acc).map (fun p => p.1)).Nodup ∧
      ∀ k, accCount
          (l.foldl (fun a s => bumpCount a (pyOrUnknown s.hunt_method)) acc)
          k = accCount acc k + labelCount l k := by
  induction l with
  | nil =>
    intro acc hacc
    exact ⟨hacc, fun k => by simp [labelCount]⟩
  | cons s l ih =>
    intro acc hacc
    rw [List.foldl_cons]
    obtain ⟨hnd, hcount⟩ := ih (bumpCount acc (pyOrUnknown s.hunt_method))
      (nodup_keys_bumpCount acc _ hacc)
    refine ⟨hnd, fun k => ?_⟩
    rw [hcount k, accCount_bumpCount acc _ k hacc]
    unfold labelCount
    rw [List.countP_cons]
    by_cases hk : (pyOrUnknown s.hunt_method == k) = true
    · simp only [hk, if_true]
      ring
    · simp only [hk, Bool.false_eq_true, if_false]
      omega

/-- Per-label counts of the grouping dict: `method_counts` records, for every
label, exactly the number of shinies coerced to that label. -/
theorem accCount_method_counts (shinies : List CaughtShiny) (k : String) :
    accCount (method_counts shinies) k = labelCount shinies k := by
  have := (accCount_foldl shinies [] (by simp)).2 k
  unfold method_counts
  rw [this]
  simp [accCount]

/-- Head of the descending sort of `l ++ [x]` when `x` is strictly the most
recent entry. -/
theorem head_of_sort_strict_max (l : List CaughtShiny) (x : CaughtShiny)
    (hmax : ∀ s ∈ l, s.caught_date < x.caught_date) :
    (List.insertionSort shinyLater (l ++ [x])).head? = some x := by
  have hperm := List.perm_insertionSort shinyLater (l ++ [x])
  have hsort := List.sorted_insertionSort shinyLater (l ++ [x])
  have hmem : x ∈ List.insertionSort shinyLater (l ++ [x]) := by
    rw [List.mem_insertionSort]
    exact List.mem_append_right _ (List.mem_singleton_self _)
  cases hl : List.insertionSort shinyLater (l ++ [x]) with
  | nil => rw [hl] at hmem; exact absurd hmem (List.not_mem_nil _)
  | cons a rest =>
    rw [hl] at hperm hsort hmem
    have ha : a ∈ l ++ [x] := hperm.mem_iff.mp (List.mem_cons_self a rest)
    rcases List.mem_append.mp ha with hal | hax
    · exfalso
      have hlt : a.caught_date < x.caught_date := hmax a hal
      rcases List.mem_cons.mp hmem with hxa | hxrest
      · exact absurd (hxa ▸ hlt) (lt_irrefl _)
      · have hle : shinyLater a x := List.rel_of_sorted_cons hsort x hxrest
        exact absurd (lt_of_le_of_lt hle hlt) (lt_irrefl _)
    · rw [List.mem_singleton] at hax
      rw [hax]
      rfl

/-! Concrete fixtures used by counterexamples and witnesses. -/

/-- Store holding one hunt-progress row, built by one upsert call. -/
def dbPika : DB := update_hunt_progress DB.empty 25 "Pikachu" "respawn" 3 1 10

/-- The single row of `dbPika`. -/
def rowPika : HuntProgress :=
  { id := 1, pokemon_id := 25, pokemon_name := "Pikachu", method := "respawn",
    encounter_count := 3, time_spent_minutes := 1, last_updated := 10 }

/-- A caught shiny logged with the `respawn` method. -/
def shinyA : CaughtShiny :=
  { id := 1, pokemon_id := 25, pokemon_name := "Pikachu",
    hunt_method := some "respawn", notes := none, caught_date := 10 }

/-- A caught shiny logged with the `door_method` method. -/
def shinyB : CaughtShiny :=
  { id := 2, pokemon_id := 133, pokemon_name := "Eevee",
    hunt_method := some "door_method", notes := none, caught_date := 11 }

/-- An old caught shiny used to exercise the ordering of `get_all_shinies`. -/
def shinyOld : CaughtShiny :=
  { id := 1, pokemon_id := 1, pokemon_name := "Bulbasaur",
    hunt_method := none, notes := none, caught_date := 3 }

/-- Store holding the single old shiny. -/
def dbOld : DB :=
  { shinies := [shinyOld], shinies_next_id := 2, hunts := [], hunts_next_id := 1 }

/-- The two update calls of the spec scenario: deltas (10, 5.0) then (5, 2.5). -/
def demoCalls : List UpdCall :=
  [{ name := "Charizard", enc := 10, time := 5, now := 1 },
   { name := "Charizard", enc := 5, time := 5/2, now := 2 }]

/-! Claim theorems. -/

/-- C1: starting from a store with no row for the (speciesId, method) key,
any nonempty sequence of `update_hunt_progress` calls for that key leaves
exactly one row whose `encounter_count` is the sum of the encounter deltas
and whose `time_spent_minutes` is the sum of the time deltas, and any
permutation of the same calls produces the same counters. -/
theorem c1_upsert_counters_sum_order_independent (db : DB) (pid : Int)
    (method : String) (calls : List UpdCall)
    (h : huntsFor db pid method = []) (hne : calls ≠ []) :
    ∃ r, huntsFor (applyUpdates db pid method calls) pid method = [r] ∧
      r.encounter_count = (calls.map UpdCall.enc).sum ∧
      r.time_spent_minutes = (calls.map UpdCall.time).sum ∧
      ∀ calls₂, calls.Perm calls₂ →
        ∃ r₂, huntsFor (applyUpdates db pid method calls₂) pid method =
            [r₂] ∧
          r₂.encounter_count = r.encounter_count ∧
          r₂.time_spent_minutes = r.time_spent_minutes := by
  obtain ⟨r, hr, henc, htime⟩ := applyUpdates_sums pid method calls db h hne
  refine ⟨r, hr, henc, htime, fun calls₂ hperm => ?_⟩
  have hne₂ : calls₂ ≠ [] := fun h0 => hne ((h0 ▸ hperm).eq_nil)
  obtain ⟨r₂, hr₂, henc₂, htime₂⟩ :=
    applyUpdates_sums pid method calls₂ db h hne₂
  refine ⟨r₂, hr₂, ?_, ?_⟩
  · rw [henc₂, henc]
    exact ((hperm.map UpdCall.enc).sum_eq).symm
  · rw [htime₂, htime]
    exact ((hperm.map UpdCall.time).sum_eq).symm

/-- C1 witness: the spec scenario, deltas (10, 5.0) then (5, 2.5) on a fresh
key, yields counters (15, 7.5). -/
theorem c1_witness :
    huntsFor DB.empty 6 "respawn" = [] ∧ demoCalls ≠ [] ∧
    ∃ r, huntsFor (applyUpdates DB.empty 6 "respawn" demoCalls) 6
        "respawn" = [r] ∧
      r.encounter_count = 15 ∧ r.time_spent_minutes = 15/2 := by
  have hne : demoCalls ≠ [] := by simp [demoCalls]
  obtain ⟨r, hr, henc, htime, _⟩ :=
    c1_upsert_counters_sum_order_independent DB.empty 6 "respawn" demoCalls
      rfl hne
  refine ⟨rfl, hne, r, hr, ?_, ?_⟩
  · rw [henc]; rfl
  · rw [htime]; norm_num [demoCalls]

/-- C2 counterexample: on the empty store, `get_hunt_stats` returns SQL
`NULL` (not 0) for both sums; only the row count is 0.  The zero coercion
happens later, in `stats_page`. -/
theorem c2_counterexample :
    (get_hunt_stats DB.empty).total_encounters = none ∧
    (get_hunt_stats DB.empty).total_time = none ∧
    (get_hunt_stats DB.empty).active_hunts = 0 ∧
    (get_hunt_stats DB.empty).total_encounters ≠ some 0 := by
  refine ⟨rfl, rfl, rfl, ?_⟩
  simp [get_hunt_stats, sqlSumInt, DB.empty]

/-- C2 amended: over a store with zero hunt rows, `get_hunt_stats` returns
`NULL` sums and a 0 row count, and the `or 0` coercions applied by
`stats_page` turn the sums into 0 for display. -/
theorem c2_empty_store_stats (db : DB) (h : db.hunts = []) :
    get_hunt_stats db =
      { total_encounters := none, total_time := none, active_hunts := 0 } ∧
    orZeroInt (get_hunt_stats db).total_encounters = 0 ∧
    orZeroRat (get_hunt_stats db).total_time = 0 := by
  refine ⟨?_, ?_, ?_⟩ <;>
    simp [get_hunt_stats, sqlSumInt, sqlSumRat, orZeroInt, orZeroRat, h]

/-- C2 witness: the freshly initialised store. -/
theorem c2_witness :
    DB.empty.hunts = [] ∧
    get_hunt_stats DB.empty =
      { total_encounters := none, total_time := none, active_hunts := 0 } ∧
    orZeroInt (get_hunt_stats DB.empty).total_encounters = 0 ∧
    orZeroRat (get_hunt_stats DB.empty).total_time = 0 :=
  ⟨rfl, (c2_empty_store_stats DB.empty rfl).1,
    (c2_empty_store_stats DB.empty rfl).2.1,
    (c2_empty_store_stats DB.empty rfl).2.2⟩

/-- C3 counterexample: upserting an existing (25, "respawn") row under the
name "Raichu" keeps the originally stored name "Pikachu": the conflict
branch of the SQL does not overwrite `pokemon_name`, so the last written
name does not win. -/
theorem c3_counterexample :
    (huntsFor (update_hunt_progress dbPika 25 "Raichu" "respawn" 0 0 20) 25
        "respawn").map (fun r => r.pokemon_name) = ["Pikachu"] ∧
    "Pikachu" ≠ "Raichu" := by
  refine ⟨rfl, ?_⟩
  decide

/-- C3 amended: an `update_hunt_progress` call on an existing (speciesId,
method) row, even with both deltas zero, refreshes `last_updated` to the
call time, but keeps the row's stored `pokemon_name` unchanged (the name
argument of the call is ignored on conflict). -/
theorem c3_zero_delta_refreshes_timestamp_keeps_name (db : DB) (pid : Int)
    (name method : String) (e : Int) (t : ℚ) (now : Nat) (r : HuntProgress)
    (h : huntsFor db pid method = [r]) :
    ∃ r', huntsFor (update_hunt_progress db pid name method e t now) pid
        method = [r'] ∧
      r'.last_updated = now ∧
      r'.pokemon_name = r.pokemon_name ∧
      r'.encounter_count = r.encounter_count + e ∧
      r'.time_spent_minutes = r.time_spent_minutes + t :=
  ⟨mergedRow r e t now,
    huntsFor_update_found db pid name method e t now r h, rfl, rfl, rfl, rfl⟩

/-- C3 witness: the zero-delta call at time 20 on the `dbPika` row. -/
theorem c3_witness :
    huntsFor dbPika 25 "respawn" = [rowPika] ∧
    ∃ r', huntsFor (update_hunt_progress dbPika 25 "Raichu" "respawn" 0 0 20)
        25 "respawn" = [r'] ∧
      r'.last_updated = 20 ∧
      r'.pokemon_name = rowPika.pokemon_name ∧
      r'.encounter_count = rowPika.encounter_count + 0 ∧
      r'.time_spent_minutes = rowPika.time_spent_minutes + 0 :=
  ⟨rfl, c3_zero_delta_refreshes_timestamp_keeps_name dbPika 25 "Raichu"
    "respawn" 0 0 20 rowPika rfl⟩

/-- C4 counterexample: `add_shiny` with a blank `pokemon_name` is not
rejected: it appends one row carrying the empty name and returns a fresh
id, contradicting the claimed `InvalidInput` rejection before any store
mutation. -/
theorem c4_counterexample :
    (add_shiny DB.empty 25 "" none none 10).1.shinies.length = 1 ∧
    ((add_shiny DB.empty 25 "" none none 10).1.shinies.map
      (fun s => s.pokemon_name)) = [""] ∧
    (add_shiny DB.empty 25 "" none none 10).2 = 1 :=
  ⟨rfl, rfl, rfl⟩

/-- C4 amended: `add_shiny` performs no validation of `pokemon_name`: every
call, with an empty or non-empty name alike, appends exactly one row holding
the given name and the current timestamp, returns the freshly assigned id,
and leaves the hunt-progress table untouched. -/
theorem c4_add_shiny_no_validation (db : DB) (pid : Int) (name : String)
    (method notes : Option String) (now : Nat) :
    (add_shiny db pid name method notes now).1.shinies.length =
      db.shinies.length + 1 ∧
    (add_shiny db pid name method notes now).1.shinies.getLast? =
      some { id := db.shinies_next_id, pokemon_id := pid,
             pokemon_name := name, hunt_method := method, notes := notes,
             caught_date := now } ∧
    (add_shiny db pid name method notes now).2 = db.shinies_next_id ∧
    (add_shiny db pid name method notes now).1.hunts = db.hunts := by
  refine ⟨?_, ?_, rfl, rfl⟩
  · simp [add_shiny]
  · simp [add_shiny]

/-- C5 counterexample: `update_hunt_progress` accepts a negative encounter
delta, which decreases the stored counter from 3 to 1. -/
theorem c5_counterexample :
    (huntsFor dbPika 25 "respawn").map (fun r => r.encounter_count) = [3] ∧
    (huntsFor (update_hunt_progress dbPika 25 "Pikachu" "respawn" (-2) 0 20)
        25 "respawn").map (fun r => r.encounter_count) = [1] ∧
    (1 : Int) < 3 := by
  refine ⟨rfl, rfl, ?_⟩
  decide

/-- C5 amended: provided the call's deltas are non-negative (as every caller
in src/app.py guarantees through its `min_value` input constraints), an
upsert on an existing row never decreases either counter and preserves their
non-negativity. -/
theorem c5_nonneg_deltas_monotone (db : DB) (pid : Int)
    (name method : String) (e : Int) (t : ℚ) (now : Nat) (r : HuntProgress)
    (h : huntsFor db pid method = [r]) (he : 0 ≤ e) (ht : 0 ≤ t) :
    ∃ r', huntsFor (update_hunt_progress db pid name method e t now) pid
        method = [r'] ∧
      r.encounter_count ≤ r'.encounter_count ∧
      r.time_spent_minutes ≤ r'.time_spent_minutes ∧
      (0 ≤ r.encounter_count → 0 ≤ r'.encounter_count) ∧
      (0 ≤ r.time_spent_minutes → 0 ≤ r'.time_spent_minutes) := by
  refine ⟨mergedRow r e t now,
    huntsFor_update_found db pid name method e t now r h, ?_, ?_, ?_, ?_⟩
  · exact le_add_of_nonneg_right he
  · exact le_add_of_nonneg_right ht
  · intro h0; exact add_nonneg h0 he
  · intro h0; exact add_nonneg h0 ht

/-- C5 witness: a (2, 1/2) delta applied to the `dbPika` row. -/
theorem c5_witness :
    huntsFor dbPika 25 "respawn" = [rowPika] ∧ (0 : Int) ≤ 2 ∧
    (0 : ℚ) ≤ 1/2 ∧
    ∃ r', huntsFor (update_hunt_progress dbPika 25 "Pikachu" "respawn" 2
        (1/2) 30) 25 "respawn" = [r'] ∧
      rowPika.encounter_count ≤ r'.encounter_count ∧
      rowPika.time_spent_minutes ≤ r'.time_spent_minutes ∧
      (0 ≤ rowPika.encounter_count → 0 ≤ r'.encounter_count) ∧
      (0 ≤ rowPika.time_spent_minutes → 0 ≤ r'.time_spent_minutes) :=
  ⟨rfl, by norm_num, by norm_num,
    c5_nonneg_deltas_monotone dbPika 25 "Pikachu" "respawn" 2 (1/2) 30
      rowPika rfl (by norm_num) (by norm_num)⟩

/-- C6 counterexample: on two shinies with distinct methods seen in the
order "respawn", "door_method" (both with count 1), the code keeps the
first-seen order and returns "respawn" first, while the claimed ascending
lexical tie-break would put "door_method" first. -/
theorem c6_counterexample :
    shinyCountByMethod [shinyA, shinyB] =
      [("respawn", 1), ("door_method", 1)] ∧
    spec_shinyCountByMethod [shinyA, shinyB] =
      [("door_method", 1), ("respawn", 1)] ∧
    shinyCountByMethod [shinyA, shinyB] ≠
      spec_shinyCountByMethod [shinyA, shinyB] := by
  refine ⟨?_, ?_, ?_⟩ <;> decide

/-- C6 amended: `shinyCountByMethod` groups the entries by method with the
"Unknown" sentinel for absent methods (per-label counts are exact) and
returns the pairs sorted by count descending; the order of tied counts is
the dict's first-seen order, not the ascending lexical order the claim
states. -/
theorem c6_group_sort_desc (shinies : List CaughtShiny) :
    (shinyCountByMethod shinies).Perm (method_counts shinies) ∧
    List.Sorted countGE (shinyCountByMethod shinies) ∧
    ∀ k, accCount (shinyCountByMethod shinies) k = labelCount shinies k := by
  refine ⟨List.perm_insertionSort countGE _,
    List.sorted_insertionSort countGE _, fun k => ?_⟩
  have hperm : (shinyCountByMethod shinies).Perm (method_counts shinies) :=
    List.perm_insertionSort countGE _
  have hfil : accCount (shinyCountByMethod shinies) k =
      accCount (method_counts shinies) k := by
    unfold accCount
    exact ((hperm.filter _).map _).sum_eq
  rw [hfil, accCount_method_counts]

/-- C7 counterexample: with zero total encounters and a positive shiny
count, the code computes no average at all, whereas the claim requires the
value 0/1 = 0. -/
theorem c7_counterexample :
    averageEncountersPerShiny 0 1 = none ∧
    (none : Option ℚ) ≠ some ((0 : ℚ) / (1 : ℚ)) := by
  refine ⟨rfl, ?_⟩
  simp

/-- C7 amended: the average is computed exactly when both the total
encounter count and the shiny count are positive, in which case it equals
their quotient; in particular it is never computed with a zero divisor. -/
theorem c7_average_guarded (t : Int) (c : Nat) :
    (averageEncountersPerShiny t c ≠ none → 0 < t ∧ 0 < c) ∧
    (0 < t → 0 < c → averageEncountersPerShiny t c =
      some ((t : ℚ) / (c : ℚ))) ∧
    (c = 0 → averageEncountersPerShiny t c = none) := by
  unfold averageEncountersPerShiny
  refine ⟨?_, ?_, ?_⟩
  · intro hne
    by_cases hc : 0 < t ∧ 0 < c
    · exact hc
    · rw [if_neg hc] at hne; exact absurd rfl hne
  · intro h1 h2
    rw [if_pos ⟨h1, h2⟩]
  · intro h
    subst h
    simp

/-- C7 witness: computed at (8, 2), not computed at (5, 0). -/
theorem c7_witness :
    averageEncountersPerShiny 8 2 = some 4 ∧
    averageEncountersPerShiny 5 0 = none := by
  constructor
  · have h := (c7_average_guarded 8 2).2.1 (by norm_num) (by norm_num)
    rw [h]
    norm_num
  · exact (c7_average_guarded 5 0).2.2 rfl

/-- C8: `get_all_shinies` returns all stored rows ordered by `caught_date`
descending, and after an `add_shiny` whose timestamp is strictly the most
recent, the new entry is the head of the next listing. -/
theorem c8_listing_order_and_head (db : DB) (pid : Int) (name : String)
    (method notes : Option String) (now : Nat)
    (hfresh : ∀ s ∈ db.shinies, s.caught_date < now) :
    (get_all_shinies db).Perm db.shinies ∧
    List.Sorted shinyLater (get_all_shinies db) ∧
    (get_all_shinies (add_shiny db pid name method notes now).1).head? =
      some { id := db.shinies_next_id, pokemon_id := pid,
             pokemon_name := name, hunt_method := method, notes := notes,
             caught_date := now } := by
  refine ⟨List.perm_insertionSort shinyLater _,
    List.sorted_insertionSort shinyLater _, ?_⟩
  exact head_of_sort_strict_max db.shinies _ hfresh

/-- C8 witness: adding a strictly newer shiny to the one-row store. -/
theorem c8_witness :
    (∀ s ∈ dbOld.shinies, s.caught_date < 7) ∧
    (get_all_shinies (add_shiny dbOld 25 "Pikachu" (some "respawn") none
        7).1).head? =
      some { id := 2, pokemon_id := 25, pokemon_name := "Pikachu",
             hunt_method := some "respawn", notes := none,
             caught_date := 7 } :=
  ⟨by decide,
    (c8_listing_order_and_head dbOld 25 "Pikachu" (some "respawn") none 7
      (by decide)).2.2⟩

/-- C9: deleting a shiny by an id no row carries, and resetting a hunt for a
key no row carries, both complete (the embedded operations are total
functions, mirroring that the SQL DELETE raises nothing) and leave the store
exactly as it was. -/
theorem c9_delete_reset_noop (db : DB) (sid : Nat) (pid : Int)
    (method : String) (h1 : ∀ s ∈ db.shinies, s.id ≠ sid)
    (h2 : ∀ r ∈ db.hunts, matchKey pid method r = false) :
    delete_shiny db sid = db ∧ reset_hunt db pid method = db := by
  constructor
  · have hf : db.shinies.filter (fun s => !(s.id == sid)) = db.shinies :=
      List.filter_eq_self.mpr (fun a ha => by simp [h1 a ha])
    unfold delete_shiny
    rw [hf]
  · have hf : db.hunts.filter (fun r => !(matchKey pid method r)) =
        db.hunts :=
      List.filter_eq_self.mpr (fun a ha => by simp [h2 a ha])
    unfold reset_hunt
    rw [hf]

/-- C9 witness: a missing shiny id and a missing hunt key on the one-shiny
store. -/
theorem c9_witness :
    (∀ s ∈ dbOld.shinies, s.id ≠ 99) ∧
    (∀ r ∈ dbOld.hunts, matchKey 5 "door_method" r = false) ∧
    delete_shiny dbOld 99 = dbOld ∧ reset_hunt dbOld 5 "door_method" = dbOld :=
  ⟨by decide, by decide,
    (c9_delete_reset_noop dbOld 99 5 "door_method" (by decide) (by decide)).1,
    (c9_delete_reset_noop dbOld 99 5 "door_method" (by decide) (by decide)).2⟩

/-- C10: the scalar count and the materialized listing always agree:
`get_shiny_count` equals the length of `get_all_shinies` on every store. -/
theorem c10_count_matches_listing (db : DB) :
    get_shiny_count db = (get_all_shinies db).length := by
  unfold get_shiny_count get_all_shinies
  exact ((List.perm_insertionSort shinyLater db.shinies).length_eq).symm
